import Mathlib

/-!
Verification of the comparison engine of `vibe-diff-api` (`src/main.py`).

The development shallowly embeds the three core operations of the program:

* `deep_diff` — the recursive structural JSON diff (`main.py`, lines 60-120);
* `text_similarity` — the similarity endpoint (`main.py`, lines 179-191),
  whose matching primitive (`difflib.SequenceMatcher`, Python stdlib, not part
  of this repository) is modelled from the spec;
* `text_diff` — the unified-diff endpoint (`main.py`, lines 141-162), whose
  diff generator (`difflib.unified_diff`, Python stdlib, not part of this
  repository) is modelled from the spec.

JSON values are the values FastAPI hands to the endpoints after parsing a
JSON body: `None`, `bool`, `int`, `float`, `str`, `list`, `dict`.  Python
floats occurring in JSON are finite, and `==` on two floats is exact value
comparison, so float payloads are embedded as rationals.  Python ints are
unbounded, so they are embedded as `Int`.
-/

inductive JVal where
  | null
  | bool (b : Bool)
  | int (n : Int)
  | float (q : Rat)
  | str (s : String)
  | arr (xs : List JVal)
  | obj (kvs : List (String × JVal))

/-- Embedding of the `JsonDiffItem` pydantic model (`main.py`, lines 35-39).
`old_value`/`new_value` default to `None` in the source; here every
construction site passes them explicitly. -/
structure JsonDiffItem where
  path : String
  type : String
  old_value : Option JVal
  new_value : Option JVal

mutual

/-- Structural size of a JSON value (1 per node); used as the fuel bound of
the embedded `deep_diff`. -/
def jsize : JVal → Nat
  | JVal.arr xs => 1 + jsizeList xs
  | JVal.obj kvs => 1 + jsizeObj kvs
  | _ => 1

/-- Total size of the elements of a list of JSON values. -/
def jsizeList : List JVal → Nat
  | [] => 0
  | v :: rest => jsize v + jsizeList rest

/-- Total size of the values of an association list. -/
def jsizeObj : List (String × JVal) → Nat
  | [] => 0
  | (_, v) :: rest => jsize v + jsizeObj rest

end

/-- Discriminator for Python's `type(x)` on the seven runtime types a parsed
JSON value can have.  Note that Python's `type` distinguishes `int` from
`float` (and `bool` from `int`), which is what `deep_diff` line 64 tests. -/
def typeTag : JVal → Nat
  | JVal.null => 0
  | JVal.bool _ => 1
  | JVal.int _ => 2
  | JVal.float _ => 3
  | JVal.str _ => 4
  | JVal.arr _ => 5
  | JVal.obj _ => 6

/-- Python `==` on two scalars of the same runtime type (the only way the
source applies it: line 112 runs after the `type` check on line 64 has
passed and dict/list have been dispatched).  On same-type scalars Python
equality is exact value comparison. -/
def scalarEq : JVal → JVal → Bool
  | JVal.null, JVal.null => true
  | JVal.bool a, JVal.bool b => a == b
  | JVal.int a, JVal.int b => a == b
  | JVal.float a, JVal.float b => a == b
  | JVal.str a, JVal.str b => a == b
  | _, _ => false

/-- Fuel-indexed unfolding of `deep_diff` (`main.py`, lines 60-120).  The
source recurses directly; here the recursion is indexed by a fuel bound so
that the definition is structural (hence kernel-computable), and
`deep_diffF_fuel_congr` below shows any fuel above `jsize` of the first
argument yields the same result, i.e. the fuel is never exhausted.

Modelling notes, faithful to the source:
* line 64: `type(obj1) != type(obj2)` is `typeTag o1 ≠ typeTag o2`;
* lines 73-90 (dict case): the source iterates `set(obj1) | set(obj2)` whose
  iteration order CPython leaves unspecified (hash-based); the spec, section
  4.3, declares the order irrelevant.  The model fixes the deterministic
  order: keys of `obj1` in order, then keys of `obj2` not in `obj1`.  Each
  side is read back through `List.lookup`, matching `obj1[key]`/`obj2[key]`
  (Python dicts have unique keys, so association lists with duplicate keys
  do not correspond to any program input);
* lines 92-109 (list case): positional comparison up to the longer length;
* lines 111-118 (scalar case): emit `changed` iff the values differ;
* `path or "root"` is `if path = "" then "root" else path`, and the path
  extensions mirror the f-strings on lines 76 and 95. -/
def diffPath (path key : String) : String :=
  if path = "" then key else path ++ "." ++ key

/-- The dict branch of `deep_diff` (`main.py`, lines 73-90), abstracted over
the recursive call `rec`.  See the modelling notes on `deep_diffF`. -/
def objCase (rec : JVal → JVal → String → List JsonDiffItem)
    (kvs1 kvs2 : List (String × JVal)) (path : String) : List JsonDiffItem :=
  ((kvs1.map Prod.fst).flatMap (fun key =>
    match List.lookup key kvs1, List.lookup key kvs2 with
    | some v1, some v2 => rec v1 v2 (diffPath path key)
    | some v1, none => [JsonDiffItem.mk (diffPath path key) "removed" (some v1) none]
    | _, _ => []))
  ++ ((kvs2.map Prod.fst).flatMap (fun key =>
    match List.lookup key kvs1, List.lookup key kvs2 with
    | none, some v2 => [JsonDiffItem.mk (diffPath path key) "added" none (some v2)]
    | _, _ => []))

/-- The list branch of `deep_diff` (`main.py`, lines 92-109), abstracted over
the recursive call `rec`. -/
def arrCase (rec : JVal → JVal → String → List JsonDiffItem)
    (xs1 xs2 : List JVal) (path : String) : List JsonDiffItem :=
  (List.range (max xs1.length xs2.length)).flatMap (fun i =>
    match xs1[i]?, xs2[i]? with
    | some v1, some v2 => rec v1 v2 (path ++ "[" ++ toString i ++ "]")
    | some v1, none =>
        [JsonDiffItem.mk (path ++ "[" ++ toString i ++ "]") "removed" (some v1) none]
    | none, some v2 =>
        [JsonDiffItem.mk (path ++ "[" ++ toString i ++ "]") "added" none (some v2)]
    | none, none => [])

def deep_diffF : Nat → JVal → JVal → String → List JsonDiffItem
  | 0, _, _, _ => []
  | fuel + 1, o1, o2, path =>
    if typeTag o1 ≠ typeTag o2 then
      [JsonDiffItem.mk (if path = "" then "root" else path) "changed" (some o1) (some o2)]
    else
      match o1, o2 with
      | JVal.obj kvs1, JVal.obj kvs2 => objCase (deep_diffF fuel) kvs1 kvs2 path
      | JVal.arr xs1, JVal.arr xs2 => arrCase (deep_diffF fuel) xs1 xs2 path
      | a, b =>
          if scalarEq a b then []
          else
            [JsonDiffItem.mk (if path = "" then "root" else path) "changed" (some a) (some b)]

/-- `deep_diff(obj1, obj2, path)` of `main.py`.  `jsize o1 + 1` fuel always
suffices (`deep_diffF_fuel_congr`): every recursive call descends into a
strict structural subterm of the first argument. -/
def deep_diff (o1 o2 : JVal) (path : String) : List JsonDiffItem :=
  deep_diffF (jsize o1 + 1) o1 o2 path

/-- The spec's six value kinds (section 3: Null, Bool, Number, String,
OrderedList, Map).  Unlike Python's `type`, the spec has a single Number
kind covering both `int` and `float`. -/
inductive JKind where
  | nullKind
  | boolKind
  | number
  | stringKind
  | orderedList
  | mapKind
deriving DecidableEq

/-- The spec-side kind of a value (spec section 3): `int` and `float` are
both `Number`. -/
def kindOf : JVal → JKind
  | JVal.null => JKind.nullKind
  | JVal.bool _ => JKind.boolKind
  | JVal.int _ => JKind.number
  | JVal.float _ => JKind.number
  | JVal.str _ => JKind.stringKind
  | JVal.arr _ => JKind.orderedList
  | JVal.obj _ => JKind.mapKind

/-- Numeric content of a `Number`-kind value, as an exact rational. -/
def numberVal : JVal → Option Rat
  | JVal.int n => some (n : Rat)
  | JVal.float q => some q
  | _ => none

/-- Modelled from the spec: scalar equality as section 4.3 describes it —
values of the same kind compared by exact value, "no kind distinction inside
Number" (so an int and a float of equal numeric value are equal).  This is
the spec-side comparison, to be held against the source's behaviour. -/
def specScalarEq : JVal → JVal → Bool
  | JVal.null, JVal.null => true
  | JVal.bool a, JVal.bool b => a == b
  | JVal.str a, JVal.str b => a == b
  | a, b =>
      match numberVal a, numberVal b with
      | some x, some y => x == y
      | _, _ => false

/-- `true` on the four scalar shapes (Null/Bool/Number/String members). -/
def isScalar : JVal → Bool
  | JVal.arr _ => false
  | JVal.obj _ => false
  | _ => true

/-! ### The similarity scorer

`main.py` lines 179-191 delegate matching to `difflib.SequenceMatcher`
(Python stdlib, not part of this repository).  The matcher below is
modelled from the spec, section 4.2: find the longest contiguous run common
to the two windows, preferring on ties the match occurring earliest in the
first sequence, then earliest in the second; recurse on the unmatched
prefix pair and suffix pair.  (The spec describes no junk heuristic, and
none is modelled.)  The recursion is fuel-indexed with a fuel that always
suffices, since each recursive call strictly shrinks the window
(`matchingBlocksF_fuel_congr`). -/

/-- Length of the common prefix run of two lists. -/
def matchLen {α : Type} [DecidableEq α] : List α → List α → Nat
  | a :: as, b :: bs => if a = b then matchLen as bs + 1 else 0
  | _, _ => 0

/-- Modelled from the spec: length of the common run of `a` and `b` starting
at offsets `i`, `j`, clipped to the search window ends `ahi`, `bhi`. -/
def runLen {α : Type} [DecidableEq α] (a b : List α) (ahi bhi i j : Nat) : Nat :=
  min (matchLen (a.drop i) (b.drop j)) (min (ahi - i) (bhi - j))

/-- All start-offset pairs of the window, ordered by first offset and then
second offset, so that a fold keeps the earliest maximum. -/
def candidatePairs (alo ahi blo bhi : Nat) : List (Nat × Nat) :=
  (List.range' alo (ahi - alo)).flatMap (fun i =>
    (List.range' blo (bhi - blo)).map (fun j => (i, j)))

/-- Keep the first candidate of strictly greatest run length (ties keep the
earlier candidate, realising the spec's earliest-in-A-then-earliest-in-B
tie-break). -/
def pickBest (cands : List (Nat × Nat × Nat)) (init : Nat × Nat × Nat) : Nat × Nat × Nat :=
  cands.foldl (fun best c => if best.2.2 < c.2.2 then c else best) init

/-- Modelled from the spec: the longest matching block of the two windows,
as `(start in a, start in b, length)`, `(alo, blo, 0)` if there is none. -/
def findLongestMatch {α : Type} [DecidableEq α] (a b : List α)
    (alo ahi blo bhi : Nat) : Nat × Nat × Nat :=
  pickBest ((candidatePairs alo ahi blo bhi).map (fun p =>
    (p.1, p.2, runLen a b ahi bhi p.1 p.2))) (alo, blo, 0)

/-- Modelled from the spec: all matching blocks, left to right — the longest
match of the window, flanked by the blocks of the prefix windows and of the
suffix windows.  Fuel-indexed; any fuel above the total window size gives
the same result. -/
def matchingBlocksF {α : Type} [DecidableEq α] :
    Nat → List α → List α → Nat → Nat → Nat → Nat → List (Nat × Nat × Nat)
  | 0, _, _, _, _, _, _ => []
  | fuel + 1, a, b, alo, ahi, blo, bhi =>
    let m := findLongestMatch a b alo ahi blo bhi
    if m.2.2 = 0 then []
    else
      matchingBlocksF fuel a b alo m.1 blo m.2.1 ++
        m :: matchingBlocksF fuel a b (m.1 + m.2.2) ahi (m.2.1 + m.2.2) bhi

/-- The matching blocks of two whole sequences (without the zero-length
sentinel block difflib appends, which the spec excludes from counts). -/
def matchingBlocks {α : Type} [DecidableEq α] (a b : List α) : List (Nat × Nat × Nat) :=
  matchingBlocksF (a.length + b.length + 1) a b 0 a.length 0 b.length

/-- Embedding of the `SimilarityResponse` pydantic model (`main.py`,
lines 53-57).  `similarity_percent` is a `float` in the source; all values
it can take here are exact in both binary floating point and `Rat`. -/
structure SimilarityResponse where
  similarity_percent : Rat
  matching_blocks : Nat
  text1_length : Nat
  text2_length : Nat

/-- Python's `round(x, 2)` on the exact value of `x`.  (CPython rounds
half-to-even; `round` here rounds half-up.  The two agree everywhere except
at exact midpoints, and every value this development evaluates is an exact
integer, where they coincide.) -/
def pyRound2 (x : Rat) : Rat := ((round (x * 100) : Int) : Rat) / 100

/-- Embedding of the `/similarity` endpoint, `text_similarity` (`main.py`,
lines 179-191): `ratio() = 2 * totalMatched / (len1 + len2)` — or `1.0`
when both inputs are empty — times 100, rounded to two decimals;
`matching_blocks` is the length of `get_matching_blocks()` (our blocks plus
difflib's sentinel) minus one, clamped at zero. -/
def text_similarity (t1 t2 : String) : SimilarityResponse :=
  let a := t1.data
  let b := t2.data
  let blocks := matchingBlocks a b
  let total := a.length + b.length
  let r : Rat :=
    if total = 0 then 1
    else (2 * (((blocks.map (fun t => t.2.2)).sum : Nat) : Rat)) / (total : Rat)
  SimilarityResponse.mk (pyRound2 (r * 100)) (max 0 ((blocks.length + 1) - 1))
    t1.length t2.length

/-- The line-boundary characters of Python's `str.splitlines`. -/
def isLineBreakChar (c : Char) : Bool :=
  c == '\x0a' || c == '\x0d' || c == '\x0b' || c == '\x0c' ||
  c == '\x1c' || c == '\x1d' || c == '\x1e' || c == '\u0085' ||
  c == ' ' || c == ' '

/-- Python's `str.splitlines(keepends=True)` (`main.py`, lines 144-145)
over the character list, with the current line accumulated in reverse:
lines are split after every line-boundary character, a CR-LF pair counts
as a single boundary, terminators are kept, and a non-terminated trailing
line is kept as a final line. -/
def splitlinesKE : List Char → List Char → List (List Char)
  | [], acc => if acc.isEmpty then [] else [acc.reverse]
  | '\x0d' :: '\x0a' :: rest, acc =>
      (acc.reverse ++ ['\x0d', '\x0a']) :: splitlinesKE rest []
  | c :: rest, acc =>
      if isLineBreakChar c then (acc.reverse ++ [c]) :: splitlinesKE rest []
      else splitlinesKE rest (c :: acc)

/-- `s.splitlines(keepends=True)` on a string. -/
def pySplitlines (s : String) : List String :=
  (splitlinesKE s.data []).map String.mk

/-- Python's `str.startswith`: character-level prefix test (used by the
addition/deletion counters on `main.py`, lines 154-155). -/
def py_startswith (s pre : String) : Bool :=
  pre.data.isPrefixOf s.data

/-- Modelled from the spec: `difflib`-style opcodes — a tagged pair of
half-open ranges of the first line sequence and of the second, with tag
`equal`, `replace`, `delete` or `insert`. -/
structure OpCode where
  tag : String
  i1 : Nat
  i2 : Nat
  j1 : Nat
  j2 : Nat

/-- Modelled from the spec: turn the matching blocks (with the zero-length
sentinel appended) into opcodes — unmatched gaps become
`replace`/`delete`/`insert`, each non-empty block becomes `equal`. -/
def opcodesAux : List (Nat × Nat × Nat) → Nat → Nat → List OpCode
  | [], _, _ => []
  | (ai, bj, size) :: rest, i, j =>
      (if i < ai ∧ j < bj then [OpCode.mk "replace" i ai j bj]
       else if i < ai then [OpCode.mk "delete" i ai j bj]
       else if j < bj then [OpCode.mk "insert" i ai j bj]
       else [])
      ++ (if size ≠ 0 then [OpCode.mk "equal" ai (ai + size) bj (bj + size)] else [])
      ++ opcodesAux rest (ai + size) (bj + size)

/-- Opcodes of two sequences of lengths `la`, `lb` with matching blocks
`blocks`. -/
def getOpcodes (la lb : Nat) (blocks : List (Nat × Nat × Nat)) : List OpCode :=
  opcodesAux (blocks ++ [(la, lb, 0)]) 0 0

/-- End of hunk grouping: the trailing group is kept unless it is a single
`equal` opcode (i.e. there were no changes in it). -/
def groupFinish : List OpCode → List (List OpCode)
  | [] => []
  | [c] => if c.tag = "equal" then [] else [[c]]
  | g => [g]

/-- Modelled from the spec: group opcodes into hunks with `n` context
lines — a hunk boundary is placed inside any `equal` run longer than
`2 * n` lines, keeping `n` trailing context lines in the closing hunk and
`n` leading context lines in the next. -/
def groupLoop (n : Nat) : List OpCode → List OpCode → List (List OpCode)
  | group, [] => groupFinish group
  | group, c :: rest =>
      if c.tag = "equal" ∧ 2 * n < c.i2 - c.i1 then
        (group ++ [OpCode.mk "equal" c.i1 (min c.i2 (c.i1 + n)) c.j1 (min c.j2 (c.j1 + n))]) ::
          groupLoop n [OpCode.mk "equal" (max c.i1 (c.i2 - n)) c.i2 (max c.j1 (c.j2 - n)) c.j2]
            rest
      else groupLoop n (group ++ [c]) rest

/-- Trim a leading `equal` opcode to at most `n` context lines. -/
def trimFirst (n : Nat) : List OpCode → List OpCode
  | [] => []
  | c :: rest =>
      if c.tag = "equal" then
        OpCode.mk c.tag (max c.i1 (c.i2 - n)) c.i2 (max c.j1 (c.j2 - n)) c.j2 :: rest
      else c :: rest

/-- Trim a trailing `equal` opcode to at most `n` context lines. -/
def trimLast (n : Nat) (codes : List OpCode) : List OpCode :=
  match codes.getLast? with
  | none => codes
  | some c =>
      if c.tag = "equal" then
        codes.dropLast ++ [OpCode.mk c.tag c.i1 (min c.i2 (c.i1 + n)) c.j1 (min c.j2 (c.j1 + n))]
      else codes

/-- Modelled from the spec: the hunks of a diff with `n` context lines
(an empty opcode list is seeded with a unit `equal` opcode, so identical
inputs produce no hunks). -/
def getGroupedOpcodes (n : Nat) (codes0 : List OpCode) : List (List OpCode) :=
  groupLoop n []
    (trimLast n (trimFirst n (if codes0.isEmpty then [OpCode.mk "equal" 0 1 0 1] else codes0)))

/-- Modelled from the spec: the `start,count` piece of a hunk header
(1-based; a bare start when the count is 1; the untranslated start when the
range is empty). -/
def formatRangeUnified (start stop : Nat) : String :=
  if stop - start = 1 then toString (start + 1)
  else toString (if stop - start = 0 then start else start + 1) ++ "," ++ toString (stop - start)

/-- The slice of a list between two indices. -/
def sliceList {α : Type} (l : List α) (lo hi : Nat) : List α :=
  (l.drop lo).take (hi - lo)

/-- Modelled from the spec: render one opcode of a hunk — context lines
prefixed by a space, removed lines by a minus sign, added lines by a plus
sign. -/
def renderOpcode (a b : List String) (c : OpCode) : List String :=
  if c.tag = "equal" then (sliceList a c.i1 c.i2).map (fun line => " " ++ line)
  else
    (if c.tag = "replace" ∨ c.tag = "delete" then
        (sliceList a c.i1 c.i2).map (fun line => "-" ++ line)
      else [])
    ++ (if c.tag = "replace" ∨ c.tag = "insert" then
        (sliceList b c.j1 c.j2).map (fun line => "+" ++ line)
      else [])

/-- Modelled from the spec: render one hunk — its header line followed by
its rendered opcodes.  (Hunks are never empty.) -/
def renderGroup (a b : List String) (g : List OpCode) : List String :=
  match g.head?, g.getLast? with
  | some first, some last =>
      ("@@ -" ++ formatRangeUnified first.i1 last.i2 ++ " +" ++
        formatRangeUnified first.j1 last.j2 ++ " @@\n") :: g.flatMap (renderOpcode a b)
  | _, _ => []

/-- Modelled from the spec: the full unified diff of two line sequences
with `n` context lines — the file header lines (emitted once, only when
there is at least one hunk; `main.py` line 147 passes the file names
`text1` and `text2` and the default line terminator) followed by the
rendered hunks. -/
def unifiedDiff (a b : List String) (n : Nat) : List String :=
  let groups := getGroupedOpcodes n (getOpcodes a.length b.length (matchingBlocks a b))
  if groups.isEmpty then []
  else "--- text1\n" :: "+++ text2\n" :: groups.flatMap (renderGroup a b)

/-- Embedding of the `TextDiffResponse` pydantic model (`main.py`,
lines 23-27). -/
structure TextDiffResponse where
  diff : List String
  has_changes : Bool
  additions : Nat
  deletions : Nat

/-- Embedding of the `/diff` endpoint, `text_diff` (`main.py`,
lines 141-162): split both texts into lines keeping the terminators, run
the unified diff, and count additions as rendered lines that start with a
plus sign but not with three, deletions as lines that start with a minus
sign but not with three (lines 154-155). -/
def text_diff (t1 t2 : String) (context_lines : Nat) : TextDiffResponse :=
  let d := unifiedDiff (pySplitlines t1) (pySplitlines t2) context_lines
  TextDiffResponse.mk d (decide (0 < d.length))
    ((d.filter (fun line => py_startswith line "+" && ! py_startswith line "+++")).length)
    ((d.filter (fun line => py_startswith line "-" && ! py_startswith line "---")).length)

/-- Modelled from the spec (section 4.1): the number of added-tagged lines
across all hunks — the total length of the second-sequence ranges of
`replace` and `insert` opcodes, which is exactly how many plus-prefixed
lines the hunks render.  Header and context lines are not counted. -/
def taggedAddedCount (t1 t2 : String) (n : Nat) : Nat :=
  (((getGroupedOpcodes n (getOpcodes (pySplitlines t1).length (pySplitlines t2).length
      (matchingBlocks (pySplitlines t1) (pySplitlines t2)))).flatMap (fun g =>
    g.filter (fun c => c.tag == "replace" || c.tag == "insert"))).map
      (fun c => c.j2 - c.j1)).sum

/-- Modelled from the spec (section 4.1): the number of removed-tagged
lines across all hunks. -/
def taggedRemovedCount (t1 t2 : String) (n : Nat) : Nat :=
  (((getGroupedOpcodes n (getOpcodes (pySplitlines t1).length (pySplitlines t2).length
      (matchingBlocks (pySplitlines t1) (pySplitlines t2)))).flatMap (fun g =>
    g.filter (fun c => c.tag == "replace" || c.tag == "delete"))).map
      (fun c => c.i2 - c.i1)).sum


/-! ### Size and fuel lemmas for `deep_diff` -/

theorem jsize_pos (v : JVal) : 1 ≤ jsize v := by
  cases v <;> simp [jsize]

theorem jsizeList_le_of_mem {v : JVal} {xs : List JVal} (h : v ∈ xs) :
    jsize v ≤ jsizeList xs := by
  induction xs with
  | nil => cases h
  | cons hd tl ih =>
      rcases List.mem_cons.mp h with h1 | h2
      · subst h1; simp [jsizeList]
      · have := ih h2; simp [jsizeList]; omega

theorem jsize_lt_of_getElem {xs : List JVal} {i : Nat} {v : JVal}
    (h : xs[i]? = some v) : jsize v < jsize (JVal.arr xs) := by
  have hm : v ∈ xs := List.getElem?_mem h
  have := jsizeList_le_of_mem hm
  simp [jsize]; omega

theorem jsizeObj_le_of_lookup {kvs : List (String × JVal)} {k : String} {v : JVal}
    (h : List.lookup k kvs = some v) : jsize v ≤ jsizeObj kvs := by
  induction kvs with
  | nil => simp [List.lookup] at h
  | cons hd tl ih =>
      obtain ⟨a, b⟩ := hd
      rw [List.lookup_cons] at h
      cases hka : (k == a) with
      | true =>
          rw [hka] at h
          simp at h
          subst h
          simp [jsizeObj]
      | false =>
          rw [hka] at h
          simp at h
          have := ih h
          simp [jsizeObj]; omega

theorem jsize_lt_of_lookup {kvs : List (String × JVal)} {k : String} {v : JVal}
    (h : List.lookup k kvs = some v) : jsize v < jsize (JVal.obj kvs) := by
  have := jsizeObj_le_of_lookup h
  simp [jsize]; omega

theorem flatMap_eq_nil_of_forall {α β : Type} {l : List α} {f : α → List β}
    (h : ∀ a ∈ l, f a = []) : l.flatMap f = [] := by
  induction l with
  | nil => rfl
  | cons hd tl ih =>
      rw [List.flatMap_cons, h hd (List.mem_cons_self hd tl),
        ih (fun a ha => h a (List.mem_cons_of_mem hd ha))]
      rfl

theorem objCase_congr {rec1 rec2 : JVal → JVal → String → List JsonDiffItem}
    {kvs1 kvs2 : List (String × JVal)} {path : String}
    (h : ∀ k v1 v2 p, List.lookup k kvs1 = some v1 → List.lookup k kvs2 = some v2 →
      rec1 v1 v2 p = rec2 v1 v2 p) :
    objCase rec1 kvs1 kvs2 path = objCase rec2 kvs1 kvs2 path := by
  unfold objCase
  congr 1
  apply List.flatMap_congr
  intro k hk
  cases h1 : List.lookup k kvs1 <;> cases h2 : List.lookup k kvs2 <;> simp [h1, h2]
  exact h k _ _ _ h1 h2

theorem arrCase_congr {rec1 rec2 : JVal → JVal → String → List JsonDiffItem}
    {xs1 xs2 : List JVal} {path : String}
    (h : ∀ (i : Nat) (v1 v2 : JVal) (p : String), xs1[i]? = some v1 → xs2[i]? = some v2 →
      rec1 v1 v2 p = rec2 v1 v2 p) :
    arrCase rec1 xs1 xs2 path = arrCase rec2 xs1 xs2 path := by
  unfold arrCase
  apply List.flatMap_congr
  intro i hi
  cases h1 : xs1[i]? <;> cases h2 : xs2[i]? <;> simp [h1, h2]
  exact h i _ _ _ h1 h2

/-- Fuel irrelevance: any fuel strictly above the structural size of the
first argument produces the same differences.  This is the termination
argument of the source's unbounded recursion: `deep_diff` descends strictly
into subterms of its first argument, so it always completes within `jsize`
recursion steps. -/
theorem deep_diffF_fuel_congr : ∀ (n m : Nat) (o1 o2 : JVal) (path : String),
    jsize o1 < n → jsize o1 < m →
    deep_diffF n o1 o2 path = deep_diffF m o1 o2 path := by
  intro n
  induction n with
  | zero => intro m o1 o2 path h1 h2; omega
  | succ n ih =>
      intro m o1 o2 path h1 h2
      cases m with
      | zero => omega
      | succ m =>
          cases o1 <;> cases o2 <;> try rfl
          case arr.arr xs1 xs2 =>
            show arrCase (deep_diffF n) xs1 xs2 path = arrCase (deep_diffF m) xs1 xs2 path
            apply arrCase_congr
            intro i v1 v2 p hv1 hv2
            have hs := jsize_lt_of_getElem hv1
            exact ih m v1 v2 p (by omega) (by omega)
          case obj.obj kvs1 kvs2 =>
            show objCase (deep_diffF n) kvs1 kvs2 path = objCase (deep_diffF m) kvs1 kvs2 path
            apply objCase_congr
            intro k v1 v2 p hv1 hv2
            have hs := jsize_lt_of_lookup hv1
            exact ih m v1 v2 p (by omega) (by omega)

/-- Packaged form of fuel irrelevance: `deep_diff` is `deep_diffF` at any
sufficiently large fuel. -/
theorem deep_diff_eval (N : Nat) (o1 o2 : JVal) (path : String) (h : jsize o1 < N) :
    deep_diff o1 o2 path = deep_diffF N o1 o2 path :=
  deep_diffF_fuel_congr (jsize o1 + 1) N o1 o2 path (by omega) h

theorem deep_diffF_self : ∀ (n : Nat) (o : JVal) (path : String),
    deep_diffF n o o path = [] := by
  intro n
  induction n with
  | zero => intro o path; rfl
  | succ n ih =>
      intro o path
      cases o <;> try (simp [deep_diffF, scalarEq])
      case arr xs =>
        show arrCase (deep_diffF n) xs xs path = []
        apply flatMap_eq_nil_of_forall
        intro i hi
        cases h1 : xs[i]? <;> simp [h1, ih]
      case obj kvs =>
        show objCase (deep_diffF n) kvs kvs path = []
        unfold objCase
        rw [flatMap_eq_nil_of_forall, flatMap_eq_nil_of_forall]
        · rfl
        · intro k hk
          cases h1 : List.lookup k kvs <;> simp [h1]
        · intro k hk
          cases h1 : List.lookup k kvs <;> simp [h1, ih]

theorem deep_diffF_succ (n : Nat) (o1 o2 : JVal) (path : String) :
    deep_diffF (n + 1) o1 o2 path =
      if typeTag o1 ≠ typeTag o2 then
        [JsonDiffItem.mk (if path = "" then "root" else path) "changed" (some o1) (some o2)]
      else
        match o1, o2 with
        | JVal.obj kvs1, JVal.obj kvs2 => objCase (deep_diffF n) kvs1 kvs2 path
        | JVal.arr xs1, JVal.arr xs2 => arrCase (deep_diffF n) xs1 xs2 path
        | a, b =>
            if scalarEq a b then []
            else
              [JsonDiffItem.mk (if path = "" then "root" else path) "changed" (some a) (some b)] := by
  cases o1 <;> cases o2 <;> rfl

theorem deep_diffF_item_shape : ∀ (n : Nat) (o1 o2 : JVal) (path : String)
    (item : JsonDiffItem), item ∈ deep_diffF n o1 o2 path →
    (item.type = "changed" ∧ (∃ a, item.old_value = some a) ∧ (∃ b, item.new_value = some b)) ∨
    (item.type = "added" ∧ item.old_value = none ∧ (∃ b, item.new_value = some b)) ∨
    (item.type = "removed" ∧ (∃ a, item.old_value = some a) ∧ item.new_value = none) := by
  intro n
  induction n with
  | zero => intro o1 o2 path item hm; cases hm
  | succ n ih =>
      intro o1 o2 path item hm
      rw [deep_diffF_succ] at hm
      split at hm
      · simp at hm
        subst hm
        exact Or.inl ⟨rfl, ⟨o1, rfl⟩, ⟨o2, rfl⟩⟩
      · split at hm
        · next kvs1 kvs2 =>
            unfold objCase at hm
            rcases List.mem_append.mp hm with hm1 | hm2
            · rcases List.mem_flatMap.mp hm1 with ⟨k, hk, hbody⟩
              split at hbody
              · exact ih _ _ _ item hbody
              · simp at hbody
                subst hbody
                exact Or.inr (Or.inr ⟨rfl, ⟨_, rfl⟩, rfl⟩)
              · cases hbody
            · rcases List.mem_flatMap.mp hm2 with ⟨k, hk, hbody⟩
              split at hbody
              · simp at hbody
                subst hbody
                exact Or.inr (Or.inl ⟨rfl, rfl, ⟨_, rfl⟩⟩)
              · cases hbody
        · next xs1 xs2 =>
            unfold arrCase at hm
            rcases List.mem_flatMap.mp hm with ⟨i, hi, hbody⟩
            split at hbody
            · exact ih _ _ _ item hbody
            · simp at hbody
              subst hbody
              exact Or.inr (Or.inr ⟨rfl, ⟨_, rfl⟩, rfl⟩)
            · simp at hbody
              subst hbody
              exact Or.inr (Or.inl ⟨rfl, rfl, ⟨_, rfl⟩⟩)
            · cases hbody
        · split at hm
          · cases hm
          · simp at hm
            subst hm
            exact Or.inl ⟨rfl, ⟨_, rfl⟩, ⟨_, rfl⟩⟩

theorem deep_diff_scalar (o1 o2 : JVal) (h1 : isScalar o1 = true) (path : String) :
    deep_diff o1 o2 path =
      if scalarEq o1 o2 then []
      else [JsonDiffItem.mk (if path = "" then "root" else path)
              "changed" (some o1) (some o2)] := by
  cases o1 <;> cases o2 <;> first | rfl | simp [isScalar] at h1

theorem scalarEq_iff (o1 o2 : JVal) (h : isScalar o1 = true) :
    scalarEq o1 o2 = true ↔ o1 = o2 := by
  cases o1 <;> cases o2 <;> simp_all [scalarEq, isScalar]

/-! ### Claim theorems about the structural diff -/

/-- C4: for every JSON value `x`, the structural diff of `x` with itself is
the empty sequence: `deep_diff(x, x)` returns `[]`. -/
theorem structural_diff_identity (x : JVal) : deep_diff x x "" = [] :=
  deep_diffF_self (jsize x + 1) x ""

/-- C9: `deep_diff` is total and terminating on every finite JSON value:
the recursion descends strictly into subterms, so the fuel-indexed unfolding
stabilises at any fuel above the structural size of the first argument and
always returns the complete result `deep_diff o1 o2 path`. -/
theorem deep_diff_terminates_within_size_fuel (n : Nat) (o1 o2 : JVal) (path : String)
    (h : jsize o1 < n) : deep_diffF n o1 o2 path = deep_diff o1 o2 path :=
  deep_diffF_fuel_congr n (jsize o1 + 1) o1 o2 path h (by omega)

/-- Witness for C9 at a concrete nested input. -/
theorem deep_diff_terminates_within_size_fuel_witness :
    jsize (JVal.obj [("a", JVal.arr [JVal.int 1, JVal.null])]) < 100 ∧
    deep_diffF 100 (JVal.obj [("a", JVal.arr [JVal.int 1, JVal.null])]) (JVal.int 5) "" =
      deep_diff (JVal.obj [("a", JVal.arr [JVal.int 1, JVal.null])]) (JVal.int 5) "" :=
  ⟨by norm_num [jsize, jsizeList, jsizeObj],
   deep_diff_terminates_within_size_fuel 100 _ _ ""
     (by norm_num [jsize, jsizeList, jsizeObj])⟩

/-- C1 counterexample: the integer `1` and the float `1.0` are both of the
spec's `Number` kind and are equal under the spec's exact-value comparison,
yet `deep_diff` emits a `changed` entry for them, because the source's
`type(obj1) != type(obj2)` check (line 64) distinguishes `int` from `float`
before any value comparison happens. -/
theorem scalar_diff_same_kind_counterexample :
    kindOf (JVal.int 1) = kindOf (JVal.float 1) ∧
    specScalarEq (JVal.int 1) (JVal.float 1) = true ∧
    deep_diff (JVal.int 1) (JVal.float 1) "" =
      [JsonDiffItem.mk "root" "changed" (some (JVal.int 1)) (some (JVal.float 1))] ∧
    deep_diff (JVal.int 1) (JVal.float 1) "" ≠ [] := by
  refine ⟨rfl, by norm_num [specScalarEq, numberVal], rfl, ?_⟩
  rw [show deep_diff (JVal.int 1) (JVal.float 1) "" =
    [JsonDiffItem.mk "root" "changed" (some (JVal.int 1)) (some (JVal.float 1))] from rfl]
  simp

/-- C1 amended: for scalars of the same Python runtime type (`type()`
equality, which separates `int` from `float`), `deep_diff` emits a single
`changed` entry exactly when the values are unequal, and the comparison is
exact-value with no tolerance; an `int` and a `float`, however, always
produce a `changed` type-mismatch entry, even when their numeric values are
exactly equal. -/
theorem scalar_diff_same_type_amended :
    (∀ o1 o2 : JVal, isScalar o1 = true → typeTag o1 = typeTag o2 →
      ((deep_diff o1 o2 "" = []) ↔ o1 = o2) ∧
      (o1 ≠ o2 → deep_diff o1 o2 "" =
        [JsonDiffItem.mk "root" "changed" (some o1) (some o2)])) ∧
    (∀ (n : Int) (q : Rat), deep_diff (JVal.int n) (JVal.float q) "" =
      [JsonDiffItem.mk "root" "changed" (some (JVal.int n)) (some (JVal.float q))]) := by
  constructor
  · intro o1 o2 hs ht
    rw [deep_diff_scalar o1 o2 hs ""]
    constructor
    · by_cases hval : scalarEq o1 o2 = true
      · have heq := (scalarEq_iff o1 o2 hs).mp hval
        subst heq
        simp [hval]
      · have hne : ¬ o1 = o2 := fun he => hval ((scalarEq_iff o1 o2 hs).mpr he)
        simp [hval, hne]
    · intro hne
      have hval : ¬ scalarEq o1 o2 = true := fun hv => hne ((scalarEq_iff o1 o2 hs).mp hv)
      simp [hval]
  · intro n q
    rfl

/-- Witness for the amended C1 at concrete unequal ints. -/
theorem scalar_diff_same_type_amended_witness :
    isScalar (JVal.int 1) = true ∧
    typeTag (JVal.int 1) = typeTag (JVal.int 2) ∧
    ((deep_diff (JVal.int 1) (JVal.int 2) "" = []) ↔ JVal.int 1 = JVal.int 2) :=
  ⟨rfl, rfl, (scalar_diff_same_type_amended.1 (JVal.int 1) (JVal.int 2) rfl rfl).1⟩

/-- C5: on two maps the structural diff works over the union of keys — a key
only in the first map contributes exactly one `removed` entry carrying the
old value, a key only in the second contributes exactly one `added` entry
carrying the new value, and a key in both recurses with the path extended by
`.key` (no leading dot at the top level); together with the spec's two
concrete examples.  (The union is iterated in the model's deterministic
order — first map's keys, then the second map's new keys — since CPython's
set iteration order is unspecified and the spec declares it irrelevant.) -/
theorem structural_diff_map_union :
    (∀ (kvs1 kvs2 : List (String × JVal)) (path : String),
      deep_diff (JVal.obj kvs1) (JVal.obj kvs2) path =
        ((kvs1.map Prod.fst).flatMap (fun key =>
          match List.lookup key kvs1, List.lookup key kvs2 with
          | some v1, some v2 =>
              deep_diff v1 v2 (if path = "" then key else path ++ "." ++ key)
          | some v1, none =>
              [JsonDiffItem.mk (if path = "" then key else path ++ "." ++ key)
                "removed" (some v1) none]
          | _, _ => []))
        ++ ((kvs2.map Prod.fst).flatMap (fun key =>
          match List.lookup key kvs1, List.lookup key kvs2 with
          | none, some v2 =>
              [JsonDiffItem.mk (if path = "" then key else path ++ "." ++ key)
                "added" none (some v2)]
          | _, _ => []))) ∧
    deep_diff (JVal.obj [("a", JVal.int 1)])
        (JVal.obj [("a", JVal.int 1), ("b", JVal.int 2)]) "" =
      [JsonDiffItem.mk "b" "added" none (some (JVal.int 2))] ∧
    deep_diff (JVal.obj [("a", JVal.int 1), ("b", JVal.int 2)])
        (JVal.obj [("a", JVal.int 1)]) "" =
      [JsonDiffItem.mk "b" "removed" (some (JVal.int 2)) none] := by
  refine ⟨?_, ?_, ?_⟩
  · intro kvs1 kvs2 path
    have h1 : deep_diff (JVal.obj kvs1) (JVal.obj kvs2) path
        = objCase deep_diff kvs1 kvs2 path := by
      show objCase (deep_diffF (jsize (JVal.obj kvs1))) kvs1 kvs2 path = _
      apply objCase_congr
      intro k v1 v2 p hv1 hv2
      have hlt := jsize_lt_of_lookup hv1
      exact (deep_diff_eval (jsize (JVal.obj kvs1)) v1 v2 p hlt).symm
    rw [h1]
    rfl
  · rw [deep_diff_eval 9 _ _ _ (by norm_num [jsize, jsizeObj])]
    rfl
  · rw [deep_diff_eval 9 _ _ _ (by norm_num [jsize, jsizeObj])]
    rfl

/-- C6: on two ordered lists the structural diff compares positionally up to
the longer length — an index beyond the second list yields `removed`, an
index beyond the first yields `added`, a shared index recurses with the path
extended by `[index]` — and consequently diffing `[1,2,3]` against
`[0,1,2,3]` yields exactly four entries: `changed` at `[0]`, `[1]`, `[2]`
and `added` at `[3]`. -/
theorem structural_diff_list_positional :
    (∀ (xs1 xs2 : List JVal) (path : String),
      deep_diff (JVal.arr xs1) (JVal.arr xs2) path =
        (List.range (max xs1.length xs2.length)).flatMap (fun i =>
          match xs1[i]?, xs2[i]? with
          | some v1, some v2 => deep_diff v1 v2 (path ++ "[" ++ toString i ++ "]")
          | some v1, none =>
              [JsonDiffItem.mk (path ++ "[" ++ toString i ++ "]") "removed" (some v1) none]
          | none, some v2 =>
              [JsonDiffItem.mk (path ++ "[" ++ toString i ++ "]") "added" none (some v2)]
          | none, none => [])) ∧
    deep_diff (JVal.arr [JVal.int 1, JVal.int 2, JVal.int 3])
        (JVal.arr [JVal.int 0, JVal.int 1, JVal.int 2, JVal.int 3]) "" =
      [JsonDiffItem.mk "[0]" "changed" (some (JVal.int 1)) (some (JVal.int 0)),
       JsonDiffItem.mk "[1]" "changed" (some (JVal.int 2)) (some (JVal.int 1)),
       JsonDiffItem.mk "[2]" "changed" (some (JVal.int 3)) (some (JVal.int 2)),
       JsonDiffItem.mk "[3]" "added" none (some (JVal.int 3))] := by
  constructor
  · intro xs1 xs2 path
    have h1 : deep_diff (JVal.arr xs1) (JVal.arr xs2) path
        = arrCase deep_diff xs1 xs2 path := by
      show arrCase (deep_diffF (jsize (JVal.arr xs1))) xs1 xs2 path = _
      apply arrCase_congr
      intro i v1 v2 p hv1 hv2
      have hlt := jsize_lt_of_getElem hv1
      exact (deep_diff_eval (jsize (JVal.arr xs1)) v1 v2 p hlt).symm
    rw [h1]
    rfl
  · rw [deep_diff_eval 9 _ _ _ (by norm_num [jsize, jsizeList])]
    rfl

/-- C10: every entry the structural diff emits satisfies the payload
invariant — an `added` entry has `old_value` absent and carries a
`new_value`, a `removed` entry has `new_value` absent and carries an
`old_value`, and only `changed` entries carry both sides. -/
theorem diff_entry_payload_invariant (o1 o2 : JVal) (path : String) (item : JsonDiffItem)
    (h : item ∈ deep_diff o1 o2 path) :
    (item.type = "added" → item.old_value = none ∧ ∃ b, item.new_value = some b) ∧
    (item.type = "removed" → item.new_value = none ∧ ∃ a, item.old_value = some a) ∧
    ((∃ a, item.old_value = some a) → (∃ b, item.new_value = some b) →
      item.type = "changed") := by
  have hs := deep_diffF_item_shape (jsize o1 + 1) o1 o2 path item h
  rcases hs with ⟨ht, hEa, hEb⟩ | ⟨ht, hOn, hEb⟩ | ⟨ht, hEa, hNn⟩
  · refine ⟨fun he => ?_, fun he => ?_, fun _ _ => ht⟩
    · rw [ht] at he; exact absurd he (by decide)
    · rw [ht] at he; exact absurd he (by decide)
  · refine ⟨fun _ => ⟨hOn, hEb⟩, fun he => ?_, fun hha _ => ?_⟩
    · rw [ht] at he; exact absurd he (by decide)
    · rcases hha with ⟨a, haa⟩
      rw [hOn] at haa
      exact absurd haa (by simp)
  · refine ⟨fun he => ?_, fun _ => ⟨hNn, hEa⟩, fun _ hhb => ?_⟩
    · rw [ht] at he; exact absurd he (by decide)
    · rcases hhb with ⟨b, hbb⟩
      rw [hNn] at hbb
      exact absurd hbb (by simp)

/-- Witness for C10 at a concrete changed-entry input. -/
theorem diff_entry_payload_invariant_witness :
    (JsonDiffItem.mk "root" "changed" (some (JVal.int 1)) (some (JVal.int 2))).type
      = "changed" :=
  (diff_entry_payload_invariant (JVal.int 1) (JVal.int 2) ""
      (JsonDiffItem.mk "root" "changed" (some (JVal.int 1)) (some (JVal.int 2)))
      (List.mem_singleton.mpr rfl)).2.2 ⟨JVal.int 1, rfl⟩ ⟨JVal.int 2, rfl⟩

theorem matchLen_self {α : Type} [DecidableEq α] : ∀ l : List α, matchLen l l = l.length := by
  intro l
  induction l with
  | nil => rfl
  | cons hd tl ih => simp [matchLen, ih]

theorem runLen_le_a {α : Type} [DecidableEq α] (a b : List α) (ahi bhi i j : Nat) :
    runLen a b ahi bhi i j ≤ ahi - i := by
  unfold runLen; omega

theorem runLen_le_b {α : Type} [DecidableEq α] (a b : List α) (ahi bhi i j : Nat) :
    runLen a b ahi bhi i j ≤ bhi - j := by
  unfold runLen; omega

theorem pickBest_eq_init {cands : List (Nat × Nat × Nat)} {init : Nat × Nat × Nat}
    (h : ∀ c ∈ cands, c.2.2 ≤ init.2.2) : pickBest cands init = init := by
  induction cands generalizing init with
  | nil => rfl
  | cons c cs ih =>
      unfold pickBest at ih ⊢
      rw [List.foldl_cons]
      have hc := h c (List.mem_cons_self c cs)
      rw [if_neg (by omega)]
      exact ih (fun d hd => h d (List.mem_cons_of_mem c hd))

theorem pickBest_mem_or_init (cands : List (Nat × Nat × Nat)) (init : Nat × Nat × Nat) :
    pickBest cands init = init ∨ pickBest cands init ∈ cands := by
  induction cands generalizing init with
  | nil => left; rfl
  | cons c cs ih =>
      unfold pickBest at ih ⊢
      rw [List.foldl_cons]
      rcases ih (if init.2.2 < c.2.2 then c else init) with h | h
      · rw [h]
        split
        · right; exact List.mem_cons_self c cs
        · left; rfl
      · right; exact List.mem_cons_of_mem c h

theorem le_pickBest_init (cands : List (Nat × Nat × Nat)) (init : Nat × Nat × Nat) :
    init.2.2 ≤ (pickBest cands init).2.2 := by
  induction cands generalizing init with
  | nil => exact Nat.le_refl _
  | cons c cs ih =>
      unfold pickBest at ih ⊢
      rw [List.foldl_cons]
      by_cases h : init.2.2 < c.2.2
      · rw [if_pos h]; exact Nat.le_trans (Nat.le_of_lt h) (ih c)
      · rw [if_neg h]; exact ih init

theorem le_pickBest_mem {cands : List (Nat × Nat × Nat)} {init c : Nat × Nat × Nat}
    (hc : c ∈ cands) : c.2.2 ≤ (pickBest cands init).2.2 := by
  induction cands generalizing init with
  | nil => cases hc
  | cons d ds ih =>
      unfold pickBest at ih ⊢
      rw [List.foldl_cons]
      rcases List.mem_cons.mp hc with h | h
      · subst h
        have hseed : c.2.2 ≤ (if init.2.2 < c.2.2 then c else init).2.2 := by
          split <;> omega
        exact Nat.le_trans hseed (le_pickBest_init ds _)
      · exact ih h

theorem findLongestMatch_self {α : Type} [DecidableEq α] (l : List α) (h : 0 < l.length) :
    findLongestMatch l l 0 l.length 0 l.length = (0, 0, l.length) := by
  have hrun0 : runLen l l l.length l.length 0 0 = l.length := by
    unfold runLen
    simp [matchLen_self]
  have hcand : (0, 0, runLen l l l.length l.length 0 0) ∈
      (candidatePairs 0 l.length 0 l.length).map (fun p =>
        (p.1, p.2, runLen l l l.length l.length p.1 p.2)) := by
    apply List.mem_map.mpr
    refine ⟨(0, 0), ?_, rfl⟩
    unfold candidatePairs
    apply List.mem_flatMap.mpr
    refine ⟨0, ?_, ?_⟩
    · rw [List.mem_range']
      exact ⟨0, by omega, by omega⟩
    · apply List.mem_map.mpr
      refine ⟨0, ?_, rfl⟩
      rw [List.mem_range']
      exact ⟨0, by omega, by omega⟩
  have hge : l.length ≤ (findLongestMatch l l 0 l.length 0 l.length).2.2 := by
    have := @le_pickBest_mem _ ((0 : Nat), (0 : Nat), (0 : Nat)) _ hcand
    rw [hrun0] at this
    exact this
  rcases pickBest_mem_or_init ((candidatePairs 0 l.length 0 l.length).map (fun p =>
      (p.1, p.2, runLen l l l.length l.length p.1 p.2))) (0, 0, 0) with hi | hmem
  · exfalso
    unfold findLongestMatch at hge
    rw [hi] at hge
    have hle : l.length ≤ 0 := hge
    omega
  · rcases List.mem_map.mp hmem with ⟨p, hp, hpe⟩
    unfold findLongestMatch at hge ⊢
    rw [← hpe] at hge ⊢
    have hge2 : l.length ≤ runLen l l l.length l.length p.1 p.2 := by simpa using hge
    have h1 := runLen_le_a l l l.length l.length p.1 p.2
    have h2 := runLen_le_b l l l.length l.length p.1 p.2
    have hp1 : p.1 = 0 := by omega
    have hp2 : p.2 = 0 := by omega
    rw [hp1, hp2, hrun0]

theorem matchingBlocksF_empty_window {α : Type} [DecidableEq α] (fuel : Nat)
    (a b : List α) (alo blo bhi : Nat) :
    matchingBlocksF (fuel + 1) a b alo alo blo bhi = [] := by
  have hflm : findLongestMatch a b alo alo blo bhi = (alo, blo, 0) := by
    unfold findLongestMatch candidatePairs
    rw [Nat.sub_self]
    rfl
  simp [matchingBlocksF, hflm]

theorem matchingBlocksF_self {α : Type} [DecidableEq α] (l : List α)
    (h : 0 < l.length) (fuel : Nat) :
    matchingBlocksF (fuel + 2) l l 0 l.length 0 l.length = [(0, 0, l.length)] := by
  show matchingBlocksF ((fuel + 1) + 1) l l 0 l.length 0 l.length = _
  rw [matchingBlocksF]
  rw [findLongestMatch_self l h]
  simp only []
  rw [if_neg (by omega)]
  rw [Nat.zero_add]
  rw [matchingBlocksF_empty_window, matchingBlocksF_empty_window]
  rfl

theorem matchingBlocks_self_pos {α : Type} [DecidableEq α] (l : List α)
    (h : 0 < l.length) : matchingBlocks l l = [(0, 0, l.length)] := by
  unfold matchingBlocks
  rw [show l.length + l.length + 1 = (l.length + l.length - 1) + 2 by omega]
  exact matchingBlocksF_self l h _

theorem pyRound2_100 : pyRound2 100 = 100 := by
  unfold pyRound2
  rw [show ((100 : Rat) * 100) = ((10000 : Int) : Rat) by norm_num, round_intCast]
  norm_num

theorem pyRound2_0 : pyRound2 0 = 0 := by
  unfold pyRound2
  rw [show ((0 : Rat) * 100) = ((0 : Int) : Rat) by norm_num, round_intCast]
  norm_num

theorem findLongestMatch_window {α : Type} [DecidableEq α] (a b : List α)
    (alo ahi blo bhi : Nat) :
    (findLongestMatch a b alo ahi blo bhi).2.2 = 0 ∨
    (alo ≤ (findLongestMatch a b alo ahi blo bhi).1 ∧
     blo ≤ (findLongestMatch a b alo ahi blo bhi).2.1 ∧
     (findLongestMatch a b alo ahi blo bhi).1 +
       (findLongestMatch a b alo ahi blo bhi).2.2 ≤ ahi ∧
     (findLongestMatch a b alo ahi blo bhi).2.1 +
       (findLongestMatch a b alo ahi blo bhi).2.2 ≤ bhi) := by
  rcases pickBest_mem_or_init ((candidatePairs alo ahi blo bhi).map (fun p =>
      (p.1, p.2, runLen a b ahi bhi p.1 p.2))) (alo, blo, 0) with hi | hmem
  · left
    unfold findLongestMatch
    rw [hi]
  · right
    rcases List.mem_map.mp hmem with ⟨p, hp, hpe⟩
    unfold candidatePairs at hp
    rcases List.mem_flatMap.mp hp with ⟨i, hir, hpm⟩
    rcases List.mem_map.mp hpm with ⟨j, hjr, hje⟩
    rw [List.mem_range'] at hir hjr
    obtain ⟨ii, hii, hieq⟩ := hir
    obtain ⟨jj, hjj, hjeq⟩ := hjr
    subst hje
    unfold findLongestMatch
    rw [← hpe]
    have hra := runLen_le_a a b ahi bhi i j
    have hrb := runLen_le_b a b ahi bhi i j
    refine ⟨?_, ?_, ?_, ?_⟩
    · show alo ≤ i
      omega
    · show blo ≤ j
      omega
    · show i + runLen a b ahi bhi i j ≤ ahi
      omega
    · show j + runLen a b ahi bhi i j ≤ bhi
      omega

/-- Fuel irrelevance for the matcher: any fuel above the total window size
gives the same block list, so the fuel used by `matchingBlocks` is never
exhausted — each recursive call strictly shrinks the window. -/
theorem matchingBlocksF_fuel_congr {α : Type} [DecidableEq α] :
    ∀ (n m : Nat) (a b : List α) (alo ahi blo bhi : Nat),
      (ahi - alo) + (bhi - blo) < n → (ahi - alo) + (bhi - blo) < m →
      matchingBlocksF n a b alo ahi blo bhi = matchingBlocksF m a b alo ahi blo bhi := by
  intro n
  induction n with
  | zero => intro m a b alo ahi blo bhi h1 h2; omega
  | succ n ih =>
      intro m a b alo ahi blo bhi h1 h2
      cases m with
      | zero => omega
      | succ m =>
          rw [matchingBlocksF, matchingBlocksF]
          rcases findLongestMatch_window a b alo ahi blo bhi with hk0 | hw
          · rw [if_pos hk0, if_pos hk0]
          · by_cases hk : (findLongestMatch a b alo ahi blo bhi).2.2 = 0
            · rw [if_pos hk, if_pos hk]
            · rw [if_neg hk, if_neg hk]
              obtain ⟨hal, hbl, hah, hbh⟩ := hw
              rw [ih m a b alo (findLongestMatch a b alo ahi blo bhi).1 blo
                    (findLongestMatch a b alo ahi blo bhi).2.1 (by omega) (by omega),
                  ih m a b ((findLongestMatch a b alo ahi blo bhi).1 +
                      (findLongestMatch a b alo ahi blo bhi).2.2) ahi
                    ((findLongestMatch a b alo ahi blo bhi).2.1 +
                      (findLongestMatch a b alo ahi blo bhi).2.2) bhi (by omega) (by omega)]


/-- C2: the similarity of any string with itself is exactly 100.0 —
including the empty string (where the both-empty convention applies) and
strings of any length (the whole string is the longest matching block, so
`totalMatched` equals the length and the ratio is exactly 1). -/
theorem similarity_self_100 (s : String) : (text_similarity s s).similarity_percent = 100 := by
  by_cases h : s.data.length = 0
  · simp only [text_similarity]
    rw [if_pos (by omega)]
    rw [show ((1 : Rat) * 100) = 100 by norm_num]
    exact pyRound2_100
  · simp only [text_similarity]
    rw [matchingBlocks_self_pos s.data (by omega)]
    rw [if_neg (by omega)]
    simp only [List.map_cons, List.map_nil, List.sum_cons, List.sum_nil]
    have hq : (2 * (((s.data.length + 0 : Nat) : Rat))) /
        (((s.data.length + s.data.length : Nat) : Rat)) = 1 := by
      have hzn : ((s.data.length : Rat)) ≠ 0 := Nat.cast_ne_zero.mpr h
      rw [Nat.add_zero,
        show ((s.data.length + s.data.length : Nat) : Rat) = 2 * (s.data.length : Rat) by
          push_cast; ring]
      exact div_self (mul_ne_zero two_ne_zero hzn)
    rw [hq]
    rw [show ((1 : Rat) * 100) = 100 by norm_num]
    exact pyRound2_100

/-- C8: similarity of two empty strings is exactly 100.0, and of an empty
string with any non-empty string exactly 0.0 (no block matches, so
`totalMatched = 0` and the formula yields 0). -/
theorem similarity_empty_conventions :
    (text_similarity "" "").similarity_percent = 100 ∧
    (∀ s : String, s ≠ "" → (text_similarity "" s).similarity_percent = 0) := by
  constructor
  · simp only [text_similarity]
    rw [if_pos (by rfl)]
    rw [show ((1 : Rat) * 100) = 100 by norm_num]
    exact pyRound2_100
  · intro s hs
    have hd : "".data = ([] : List Char) := rfl
    have hlen : 0 < s.data.length := by
      rcases Nat.eq_zero_or_pos s.data.length with h0 | hp
      · exfalso
        apply hs
        have hnil : s.data = [] := List.length_eq_zero.mp h0
        exact String.ext (hnil.trans hd.symm)
      · exact hp
    have hblocks : matchingBlocks "".data s.data = [] := by
      unfold matchingBlocks
      rw [hd]
      simp only [List.length_nil]
      exact matchingBlocksF_empty_window (0 + s.data.length) [] s.data 0 0 s.data.length
    simp only [text_similarity]
    rw [hblocks]
    rw [if_neg (by simp only [List.length_nil, Nat.zero_add]; omega)]
    simp only [List.map_nil, List.sum_nil, Nat.cast_zero, mul_zero, zero_div, zero_mul]
    exact pyRound2_0


/-- Witness for C8 at the concrete non-empty string `"x"`. -/
theorem similarity_empty_conventions_witness :
    ("x" : String) ≠ "" ∧ (text_similarity "" "x").similarity_percent = 0 :=
  ⟨by decide, similarity_empty_conventions.2 "x" (by decide)⟩

set_option maxHeartbeats 2000000 in
theorem splitlinesKE_flatten : ∀ (cs acc : List Char),
    (splitlinesKE cs acc).flatten = acc.reverse ++ cs := by
  intro cs acc
  induction cs, acc using splitlinesKE.induct with
  | case1 acc h => simp [splitlinesKE, List.isEmpty_iff.mp h]
  | case2 acc h => simp [splitlinesKE, h]
  | case3 rest acc ih => simp [splitlinesKE, ih]
  | case4 c rest acc h0 hbr ih => simp [splitlinesKE, h0, hbr, ih]
  | case5 c rest acc h0 hbr ih => simp [splitlinesKE, h0, hbr, ih]

/-- C7: concatenating the line sequence produced by the text diff's
line-splitting step reproduces the original string exactly, including a
non-terminated final line. -/
theorem splitlines_roundtrip (s : String) : String.join (pySplitlines s) = s := by
  rw [String.join_eq]
  unfold pySplitlines
  rw [List.map_map]
  rw [show (String.data ∘ String.mk) = fun l => l from rfl]
  rw [List.map_id']
  rw [splitlinesKE_flatten]
  cases s with
  | mk d => rfl

/-- C3 (code-bug evidence): at `text1 = "a\n"`, `text2 = "a\n++x\n"`,
`context_lines = 3`, the produced diff contains exactly one added-tagged
line (rendered `+++x\n`), but the endpoint's `additions` counter reports 0,
because the rendered line also passes the three-plus-signs header test of
`main.py` line 154.  The count therefore depends on a line's content, not
only on its tag, contradicting the claim. -/
theorem text_diff_additions_counting_bug :
    (text_diff "a\n" "a\n++x\n" 3).diff =
      ["--- text1\n", "+++ text2\n", "@@ -1 +1,2 @@\n", " a\n", "+++x\n"] ∧
    (text_diff "a\n" "a\n++x\n" 3).additions = 0 ∧
    taggedAddedCount "a\n" "a\n++x\n" 3 = 1 ∧
    (text_diff "a\n" "a\n++x\n" 3).additions ≠ taggedAddedCount "a\n" "a\n++x\n" 3 := by
  refine ⟨rfl, rfl, rfl, ?_⟩
  rw [show (text_diff "a\n" "a\n++x\n" 3).additions = 0 from rfl]
  rw [show taggedAddedCount "a\n" "a\n++x\n" 3 = 1 from rfl]
  decide
